import Mathlib

/-!
Verification of the mod/script discovery, metadata, export and chunking
code of the repository (files `discovery.py`, `tools/script_extractor.py`,
`tools/split_test.py`), over a shallow embedding of a directory tree.

The filesystem is modelled as a tree of entries.  A file carries its name,
byte size, text content (as a list of lines) and a readability flag; a
directory carries its name, a readability flag and its children in on-disk
order.  An unreadable directory models a directory with no access
permissions: listing it raises `PermissionError`, `Path.exists` on
anything below it returns `false`, and `Path.glob` silently skips it
(pathlib suppresses the permission error during globbing).  An unreadable
file models a file whose `read_text` or copy raises `OSError`.
-/

namespace Anomaly

/-- A regular file: name, size in bytes, content as a list of text lines,
and whether reading it succeeds. -/
structure SFile where
  name : String
  size : Nat
  lines : List String
  readable : Bool
deriving DecidableEq

/-- A filesystem entry: a file or a directory (name, readability flag,
children in on-disk order). -/
inductive Entry where
  | file : SFile → Entry
  | dir : String → Bool → List Entry → Entry

instance : Inhabited Entry := ⟨.dir "" true []⟩

/-- The entry's own name (`Path.name`). -/
def Entry.name : Entry → String
  | .file f => f.name
  | .dir n _ _ => n

/-- `Path.is_dir()`. -/
def Entry.isDir : Entry → Bool
  | .file _ => false
  | .dir _ _ _ => true

/-- Whether the entry is a regular file. -/
def Entry.isFile : Entry → Bool
  | .file _ => true
  | .dir _ _ _ => false

/-- Children of a directory (empty for a file). -/
def Entry.children : Entry → List Entry
  | .file _ => []
  | .dir _ _ cs => cs

/-- Readability flag of the entry. -/
def Entry.readable : Entry → Bool
  | .file f => f.readable
  | .dir _ r _ => r

/-- `st_size` of the entry (0 for directories; only used on files). -/
def Entry.byteSize : Entry → Nat
  | .file f => f.size
  | .dir _ _ _ => 0

mutual

/-- Resolve a relative path below an entry, as `stat` does: descending
into an unreadable directory fails, so `(root / a / b).exists()` is false
when an intermediate directory is unreadable.  Resolving `[]` yields the
entry itself. -/
def Entry.find : Entry → List String → Option Entry
  | e, [] => some e
  | .file _, _ :: _ => none
  | .dir _ r cs, n :: rest => if r then findIn cs n rest else none

/-- Look up the child named `n` among `cs` and resolve `rest` below it. -/
def findIn : List Entry → String → List String → Option Entry
  | [], _, _ => none
  | c :: cs, n, rest => if c.name = n then c.find rest else findIn cs n rest

end

/-- `Path.iterdir()`: lists a readable directory, raises
`NotADirectoryError` on a file and `PermissionError` on an unreadable
directory. -/
def Entry.iterdirE : Entry → Except String (List Entry)
  | .file _ => .error "NotADirectoryError"
  | .dir _ r cs => if r then .ok cs else .error "PermissionError"

/-- Whether a name matches the glob pattern `*<ext>` (fnmatch semantics:
the name ends with the literal `ext`). -/
def matchExt (n : String) (ext : String) : Bool :=
  ext.toList.isSuffixOf n.toList

/-- `scripts_dir.glob("*<ext>")`: the names of the directory entries
(files or directories alike) matching the pattern, in on-disk order;
empty on a file or an unreadable directory (pathlib returns nothing
there). -/
def Entry.globTop : Entry → String → List String
  | .file _, _ => []
  | .dir _ r cs, ext =>
    if r then (cs.filter (fun c => matchExt c.name ext)).map Entry.name else []

mutual

/-- `scripts_dir.glob("**/*<ext>")` together with the matched entries:
relative paths (as component lists) of all entries matching `*<ext>` in
this directory and, depth-first, in every readable subdirectory, paired
with the entry found there.  Unreadable subtrees are skipped silently, as
pathlib does. -/
def Entry.rglobE : Entry → String → List (List String × Entry)
  | .file _, _ => []
  | .dir _ r cs, ext =>
    if r then
      (cs.filter (fun c => matchExt c.name ext)).map (fun c => ([c.name], c))
        ++ rglobEList cs ext
    else []

/-- Recursive part of `rglobE`: matches strictly below each child. -/
def rglobEList : List Entry → String → List (List String × Entry)
  | [], _ => []
  | c :: rest, ext =>
    (match c with
     | .dir _ _ _ => (c.rglobE ext).map (fun pe => (c.name :: pe.1, pe.2))
     | .file _ => []) ++ rglobEList rest ext

end

/-- `scripts_dir.glob("**/*<ext>")`: the relative paths only. -/
def Entry.rglob (e : Entry) (ext : String) : List (List String) :=
  (e.rglobE ext).map (fun pe => pe.1)

mutual

/-- Specification-side enumeration: all (relative path, entry) pairs
strictly below an entry that are reachable through readable directories.
This is the reference "set of entries in the tree" against which the
collector is checked. -/
def Entry.walk : Entry → List (List String × Entry)
  | .file _ => []
  | .dir _ r cs => if r then walkList cs else []

/-- `walk` over a list of siblings. -/
def walkList : List Entry → List (List String × Entry)
  | [] => []
  | c :: rest =>
    ([c.name], c) :: (c.walk.map (fun pe => (c.name :: pe.1, pe.2))) ++ walkList rest

end

/-- Sort key of a path: the joined path string, so the order is the
platform-neutral order on absolute path strings used by `sorted` on
`Path` objects. -/
def pathKey (p : List String) : String :=
  String.intercalate "/" p

/-- Lexicographic comparison of character lists by code point: the order
`sorted` uses on strings. -/
def charLe : List Char → List Char → Bool
  | [], _ => true
  | _ :: _, [] => false
  | a :: as, b :: bs => if a < b then true else if b < a then false else charLe as bs

/-- String comparison by code points. -/
def strLeB (a b : String) : Bool := charLe a.toList b.toList

/-- Comparison of paths by their path string. -/
def pathLe (p q : List String) : Prop :=
  strLeB (pathKey p) (pathKey q) = true

instance : DecidableRel pathLe := fun p q => by
  unfold pathLe; infer_instance

theorem charLe_total (a : List Char) : ∀ b, charLe a b = true ∨ charLe b a = true := by
  induction a with
  | nil => intro b; left; rfl
  | cons x xs ih =>
    intro b
    cases b with
    | nil => right; rfl
    | cons y ys =>
      rcases lt_trichotomy x y with h | h | h
      · left; simp [charLe, h]
      · subst h
        rcases ih ys with h1 | h1
        · left; simp [charLe, lt_irrefl, h1]
        · right; simp [charLe, lt_irrefl, h1]
      · right; simp [charLe, h]

theorem charLe_trans :
    ∀ {a b c : List Char}, charLe a b = true → charLe b c = true →
      charLe a c = true := by
  intro a
  induction a with
  | nil => intro b c _ _; rfl
  | cons x xs ih =>
    intro b c h1 h2
    cases b with
    | nil => simp [charLe] at h1
    | cons y ys =>
      cases c with
      | nil => simp [charLe] at h2
      | cons z zs =>
        by_cases hxy : x < y
        · by_cases hyz : y < z
          · simp [charLe, lt_trans hxy hyz]
          · by_cases hzy : z < y
            · simp [charLe, hyz, hzy] at h2
            · have hyzeq : y = z := le_antisymm (not_lt.1 hzy) (not_lt.1 hyz)
              subst hyzeq
              simp [charLe, hxy]
        · by_cases hyx : y < x
          · simp [charLe, hxy, hyx] at h1
          · have hxyeq : x = y := le_antisymm (not_lt.1 hyx) (not_lt.1 hxy)
            subst hxyeq
            simp only [charLe, if_neg hxy, if_neg hyx] at h1 ⊢
            by_cases hyz : x < z
            · simp [hyz]
            · by_cases hzy : z < x
              · simp [charLe, hyz, hzy] at h2
              · have hyzeq : x = z := le_antisymm (not_lt.1 hzy) (not_lt.1 hyz)
                subst hyzeq
                simp only [charLe, if_neg hyz, if_neg hzy] at h2 ⊢
                exact ih h1 h2

instance : IsTotal (List String) pathLe :=
  ⟨fun p q => by
    unfold pathLe strLeB
    exact charLe_total _ _⟩

instance : IsTrans (List String) pathLe :=
  ⟨fun _ _ _ h1 h2 => charLe_trans h1 h2⟩

/-- `sorted(scripts)`: a stable sort of the path list by path string. -/
def sortPaths (l : List (List String)) : List (List String) :=
  l.insertionSort pathLe

/-- The dedup loop of `find_scripts`: append each new path unless it is
already present (`if f not in scripts: scripts.append(f)`). -/
def addNew (acc : List (List String)) : List (List String) → List (List String)
  | [] => acc
  | p :: rest => addNew (if p ∈ acc then acc else acc ++ [p]) rest

/-- `find_scripts(scripts_dir)` from `discovery.py`: top-level `*.lua`
then `*.script` matches, then the recursive matches of `**/*.lua` and
`**/*.script` deduplicated against what was already collected, finally
sorted.  `base` is the absolute path of `scripts_dir`, so every returned
path is absolute. -/
def find_scripts (base : List String) (e : Entry) : List (List String) :=
  let top := (e.globTop ".lua").map (fun n => base ++ [n])
          ++ (e.globTop ".script").map (fun n => base ++ [n])
  let rec1 := (e.rglob ".lua").map (fun p => base ++ p)
  let rec2 := (e.rglob ".script").map (fun p => base ++ p)
  sortPaths (addNew (addNew top rec1) rec2)

/-- A discovery result: the insertion-ordered key/value pairs of the
Python dict mapping mod name to script path list. -/
abbrev Discovery := List (String × List (List String))

/-- `mods[k] = v` on a Python dict: overwrite in place if the key exists,
otherwise append. -/
def dictInsert (d : Discovery) (k : String) (v : List (List String)) : Discovery :=
  if d.any (fun kv => kv.1 = k) then
    d.map (fun kv => if kv.1 = k then (k, v) else kv)
  else d ++ [(k, v)]

/-- `line.startswith(k)`, spelled out on the character lists. -/
def startsKey (line : String) (k : String) : Bool :=
  k.toList.isPrefixOf line.toList

/-- Names skipped by the classifier's subdirectory loop
(`item.name.startswith('.') or item.name in (...)`). -/
def skipName (n : String) : Bool :=
  startsKey n "." || n ∈ ["__pycache__", "backup", "backups"]

/-- Loop body over `item.iterdir()` in `discover_mods`: register each
nested `subitem/gamedata/scripts` that yields scripts, keyed
`"<item>/<subitem>"`. -/
def processSubitems (base : List String) (itemName : String)
    (mods : Discovery) : List Entry → Discovery
  | [] => mods
  | sub :: rest =>
    let mods' :=
      if sub.isDir then
        match sub.find ["gamedata", "scripts"] with
        | some sd =>
          let scripts :=
            find_scripts (base ++ [itemName, sub.name, "gamedata", "scripts"]) sd
          if scripts.isEmpty then mods
          else dictInsert mods (itemName ++ "/" ++ sub.name) scripts
        | none => mods
      else mods
    processSubitems base itemName mods' rest

/-- One iteration of the subdirectory loop of `discover_mods`: skip
non-directories and well-known non-mod names; register a direct
`gamedata/scripts`; otherwise list the item (which raises on an
unreadable directory) and look one level deeper. -/
def processItem (base : List String) (mods : Discovery) (item : Entry) :
    Except String Discovery :=
  if !item.isDir then .ok mods
  else if skipName item.name then .ok mods
  else
    match item.find ["gamedata", "scripts"] with
    | some sd =>
      let scripts := find_scripts (base ++ [item.name, "gamedata", "scripts"]) sd
      .ok (if scripts.isEmpty then mods else dictInsert mods item.name scripts)
    | none =>
      match item.iterdirE with
      | .error e => .error e
      | .ok subs => .ok (processSubitems base item.name mods subs)

/-- The subdirectory loop of `discover_mods`; an exception raised while
processing one item propagates. -/
def processItems (base : List String) (mods : Discovery) :
    List Entry → Except String Discovery
  | [] => .ok mods
  | item :: rest =>
    match processItem base mods item with
    | .error e => .error e
    | .ok mods' => processItems base mods' rest

/-- `discover_mods(root_path)` from `discovery.py`.  `base` is the
absolute path of `root`.  A root named `"gamedata"` is handled by an
early return; otherwise a direct `gamedata/scripts` registers the root
itself, and then every immediate subdirectory is scanned.  The `Except`
layer carries exceptions that the Python code does not catch
(`PermissionError` from `iterdir` on an unreadable directory,
`NotADirectoryError` from `iterdir` on a file). -/
def discover_mods (base : List String) (root : Entry) :
    Except String Discovery :=
  if root.name = "gamedata" then
    match root.find ["scripts"] with
    | some sd =>
      let scripts := find_scripts (base ++ ["scripts"]) sd
      if scripts.isEmpty then .ok [] else .ok [("(root)", scripts)]
    | none => .ok []
  else
    let mods :=
      match root.find ["gamedata", "scripts"] with
      | some sd =>
        let scripts := find_scripts (base ++ ["gamedata", "scripts"]) sd
        if scripts.isEmpty then [] else dictInsert [] root.name scripts
      | none => []
    match root.iterdirE with
    | .error e => .error e
    | .ok items => processItems base mods items

/-- The key/value pairs of a successful discovery ([] on an exception). -/
def discoverEntries (base : List String) (root : Entry) : Discovery :=
  match discover_mods base root with
  | .ok d => d
  | .error _ => []

/-- The metadata record built by `get_mod_info`.  Absent fields are
`none`; `name` always holds at least the directory-derived name. -/
structure ModInfo where
  name : String
  version : Option String
  author : Option String
deriving DecidableEq

/-- The whitespace set of Python's `str.strip()`. -/
def isPyWS (c : Char) : Bool :=
  c == ' ' || c == '\t' || c == '\n' || c == '\r' ||
    c == Char.ofNat 11 || c == Char.ofNat 12

/-- `s.strip()`: drop whitespace from both ends. -/
def pyStrip (s : String) : String :=
  ⟨((s.toList.dropWhile isPyWS).reverse.dropWhile isPyWS).reverse⟩

/-- One iteration of the `meta.ini` line loop of `get_mod_info`: a line
starting with `name=` / `version=` / `author=` overwrites that field with
the stripped text after the first `=` (`line.split("=", 1)[1].strip()`,
which for a line starting with `<key>=` is the line minus the key,
stripped). -/
def applyMetaLine (info : ModInfo) (line : String) : ModInfo :=
  if startsKey line "name=" then { info with name := pyStrip (line.drop 5) }
  else if startsKey line "version=" then
    { info with version := some (pyStrip (line.drop 8)) }
  else if startsKey line "author=" then
    { info with author := some (pyStrip (line.drop 7)) }
  else info

/-- `read_text` on a file: the lines, or `none` when the read raises
`OSError`.  (`errors='ignore'` means decoding never raises.) -/
def SFile.readLines (f : SFile) : Option (List String) :=
  if f.readable then some f.lines else none

/-- The `meta.ini` block of `get_mod_info`: if a readable `meta.ini`
exists, fold its lines over `info` (so a later line for a key overwrites
an earlier one); a failed read (unreadable file, or a directory where a
file was expected, raising `IsADirectoryError`) is swallowed by the
`except` clause and leaves `info` unchanged. -/
def readMeta (mod : Entry) (info : ModInfo) : ModInfo :=
  match mod.find ["meta.ini"] with
  | some (.file f) =>
    match f.readLines with
    | some lines => lines.foldl applyMetaLine info
    | none => info
  | _ => info

/-- The `modinfo.txt` block of `get_mod_info`: if a readable, non-empty
`modinfo.txt` exists, its first line (stripped) overwrites the name; a
failed read is swallowed and leaves `info` unchanged. -/
def readModinfoTxt (mod : Entry) (info : ModInfo) : ModInfo :=
  match mod.find ["modinfo.txt"] with
  | some (.file f) =>
    match f.readLines with
    | some [] => info
    | some (l :: _) => { info with name := pyStrip l }
    | none => info
  | _ => info

/-- `get_mod_info(mod_path)` from `discovery.py`: start from the folder
name, apply the `meta.ini` block, then the `modinfo.txt` block.  Both
blocks swallow read errors, so the function is total (never raises). -/
def get_mod_info (mod : Entry) : ModInfo :=
  readModinfoTxt mod (readMeta mod ⟨mod.name, none, none⟩)

/-! ### `tools/script_extractor.py` -/

/-- The stats dict of `extract_scripts`: the set of mod names that had a
file copied (as a first-insertion-ordered list), the file counter, the
total byte counter, and the (relative path, message) failure list. -/
structure ExportStats where
  mods : List String
  files : Nat
  total_size : Nat
  errors : List (List String × String)
deriving DecidableEq

/-- `stats['mods'].add name`: insert once. -/
def insertOnce (l : List String) (n : String) : List String :=
  if n ∈ l then l else l ++ [n]

/-- Whether `shutil.copy2(src, dst)` succeeds: the source must be a
readable regular file (copying a directory raises `IsADirectoryError`,
an unreadable one raises `PermissionError`). -/
def copyOk : Entry → Bool
  | .file f => f.readable
  | .dir _ _ _ => false

/-- `find_script_files` loop body: for each immediate subdirectory with a
`gamedata/scripts` folder, the recursive `*.script` matches, as
`(mod name, path relative to the mods folder, matched entry)` tuples. -/
def collectMods : List Entry → List (String × List String × Entry)
  | [] => []
  | m :: rest =>
    (if m.isDir then
      match m.find ["gamedata", "scripts"] with
      | some sd =>
        (sd.rglobE ".script").map
          (fun pe => (m.name, m.name :: "gamedata" :: "scripts" :: pe.1, pe.2))
      | none => []
    else []) ++ collectMods rest

/-- `find_script_files(mods_path)` from `tools/script_extractor.py`:
lists the mods folder (raising on an unreadable directory or a file) and
collects every `*.script` match below each subdirectory's
`gamedata/scripts`. -/
def find_script_files (root : Entry) :
    Except String (List (String × List String × Entry)) :=
  match root.iterdirE with
  | .error e => .error e
  | .ok items => .ok (collectMods items)

/-- The copy loop of `extract_scripts`: on success, record the mod,
count the file, add its size and record the written relative path; on
failure, append to the failure list and continue with the next file. -/
def copyLoop :
    List (String × List String × Entry) → ExportStats → List (List String) →
      ExportStats × List (List String)
  | [], stats, written => (stats, written)
  | (mn, rel, src) :: rest, stats, written =>
    if copyOk src then
      copyLoop rest
        { stats with
          mods := insertOnce stats.mods mn
          files := stats.files + 1
          total_size := stats.total_size + src.byteSize }
        (written ++ [rel])
    else
      copyLoop rest
        { stats with errors := stats.errors ++ [(rel, "copy failed")] } written

/-- Result of an export run: the stats, whether the output directory was
created, and the relative paths successfully written. -/
structure ExportResult where
  stats : ExportStats
  mkdirOutput : Bool
  written : List (List String)
deriving DecidableEq

/-- The empty stats dict. -/
def emptyStats : ExportStats := ⟨[], 0, 0, []⟩

/-- `extract_scripts(mods_path, output_path)` from
`tools/script_extractor.py`: find the script files; if none, return the
empty stats without touching the output directory; otherwise create the
output directory and run the copy loop. -/
def extract_scripts (root : Entry) : Except String ExportResult :=
  match find_script_files root with
  | .error e => .error e
  | .ok scripts =>
    if scripts.isEmpty then .ok ⟨emptyStats, false, []⟩
    else
      let sw := copyLoop scripts emptyStats []
      .ok ⟨sw.1, true, sw.2⟩

/-! ### `tools/split_test.py` -/

/-- Order used by `sorted(mods_path.iterdir())`: entries of one directory
compare by name (their paths share the parent). -/
def entryLe (a b : Entry) : Prop := strLeB a.name b.name = true

instance : DecidableRel entryLe := fun a b => by
  unfold entryLe; infer_instance

/-- `get_mods` loop body: keep each directory whose `gamedata/scripts`
exists and whose top-level `*.script` count is positive, paired with
that count. -/
def getModsList : List Entry → List (Entry × Nat)
  | [] => []
  | item :: rest =>
    (if item.isDir then
      match item.find ["gamedata", "scripts"] with
      | some sd =>
        let n := (sd.globTop ".script").length
        if n > 0 then [(item, n)] else []
      | none => []
    else []) ++ getModsList rest

/-- `get_mods(mods_path)` from `tools/split_test.py`: the kept
subdirectories in sorted directory order. -/
def get_mods (root : Entry) : Except String (List (Entry × Nat)) :=
  match root.iterdirE with
  | .error e => .error e
  | .ok cs => .ok (getModsList (cs.insertionSort entryLe))

/-- `f"mods_chunk_{chunk_num:02d}.zip"`. -/
def zipName (num : Nat) : String :=
  "mods_chunk_" ++ (if num < 10 then "0" ++ toString num else toString num) ++ ".zip"

/-- Member paths written by `create_chunk_zip` for one chunk: for each
mod, its top-level `*.script` matches then its `*.bak` matches, each
archived as `<mod name>/gamedata/scripts/<file name>`. -/
def chunkMembers : List (Entry × Nat) → List String
  | [] => []
  | (m, _) :: rest =>
    (match m.find ["gamedata", "scripts"] with
     | some sd =>
       (sd.globTop ".script").map (fun n => m.name ++ "/gamedata/scripts/" ++ n)
         ++ (sd.globTop ".bak").map (fun n => m.name ++ "/gamedata/scripts/" ++ n)
     | none => []) ++ chunkMembers rest

/-- `ceil(n / c)` as computed for a positive chunk size. -/
def ceilDiv (n c : Nat) : Nat := (n + c - 1) / c

/-- The chunking loop of `main` in `tools/split_test.py`: chunk `i`
(0-based) is `mods[i*c : min((i+1)*c, len(mods))]`, written to the
archive `zipName (i+1)`. -/
def makeChunks (mods : List (Entry × Nat)) (c : Nat) :
    List (String × List (Entry × Nat)) :=
  (List.range (ceilDiv mods.length c)).map (fun i =>
    (zipName (i + 1),
     (mods.drop (i * c)).take (min ((i + 1) * c) mods.length - i * c)))

/-- The driver of `tools/split_test.py` after argument parsing: `path`
is `none` when the given path does not exist (exit 1 before any
scanning); otherwise scan, exit 1 when no mods are found, exit 0 with no
archives in `--list` mode, and otherwise write one archive per chunk
(`ZeroDivisionError` for a zero chunk size).  The result is the exit
code and the list of archive names created on disk. -/
def splitMain (path : Option Entry) (chunks : Nat) (listFlag : Bool) :
    Except String (Nat × List String) :=
  match path with
  | none => .ok (1, [])
  | some root =>
    match get_mods root with
    | .error e => .error e
    | .ok mods =>
      if mods.isEmpty then .ok (1, [])
      else if listFlag then .ok (0, [])
      else if chunks = 0 then .error "ZeroDivisionError"
      else .ok (0, (makeChunks mods chunks).map (fun nc => nc.1))

/-! ### Auxiliary decidable predicates -/

/-- Boolean distinctness of a list of names. -/
def nodupB : List String → Bool
  | [] => true
  | n :: rest => !rest.contains n && nodupB rest

/-! ## Helper lemmas: glob membership against the reference walk -/

theorem rglobE_file {f : SFile} {ext : String} :
    (Entry.file f).rglobE ext = [] := by
  simp [Entry.rglobE]

theorem walk_file {f : SFile} : (Entry.file f).walk = [] := by
  simp [Entry.walk]

theorem mem_rglobEList {cs : List Entry} {ext : String} {p : List String}
    {en : Entry} :
    (p, en) ∈ rglobEList cs ext ↔
      ∃ c ∈ cs, ∃ q, p = c.name :: q ∧ (q, en) ∈ c.rglobE ext := by
  induction cs with
  | nil => simp [rglobEList]
  | cons c rest ih =>
    cases c with
    | file f => simp [rglobEList, rglobE_file, ih]
    | dir nm r cs' =>
      simp only [rglobEList, List.mem_append, List.mem_map, ih, List.mem_cons,
        Prod.mk.injEq, Entry.name]
      aesop

theorem mem_walkList {cs : List Entry} {p : List String} {en : Entry} :
    (p, en) ∈ walkList cs ↔
      ∃ c ∈ cs, (p = [c.name] ∧ en = c) ∨
        ∃ q, p = c.name :: q ∧ (q, en) ∈ c.walk := by
  induction cs with
  | nil => simp [walkList]
  | cons c rest ih =>
    simp only [walkList, List.mem_cons, List.mem_append, List.mem_map, ih,
      Prod.mk.injEq]
    aesop

theorem nil_not_mem_rglobE {e : Entry} {ext : String} {en : Entry} :
    ([], en) ∉ e.rglobE ext := by
  cases e with
  | file f => simp [rglobE_file]
  | dir nm r cs =>
    simp only [Entry.rglobE]
    intro h
    rcases (by split at h <;> simp_all : ([], en) ∈
        (cs.filter (fun c => matchExt c.name ext)).map (fun c => ([c.name], c))
        ∨ ([], en) ∈ rglobEList cs ext) with h1 | h1
    · simp at h1
    · rcases mem_rglobEList.1 h1 with ⟨c, _, q, hq, _⟩
      exact List.noConfusion hq

theorem nil_not_mem_walk {e : Entry} {en : Entry} : ([], en) ∉ e.walk := by
  cases e with
  | file f => simp [walk_file]
  | dir nm r cs =>
    simp only [Entry.walk]
    split
    · intro h
      rcases mem_walkList.1 h with ⟨c, _, ⟨hp, _⟩ | ⟨q, hq, _⟩⟩
      · exact List.noConfusion hp
      · exact List.noConfusion hq
    · simp

theorem mem_rglobE_iff_walk :
    ∀ (p : List String) (e : Entry) (en : Entry) (ext : String),
      (p, en) ∈ e.rglobE ext ↔
        (p, en) ∈ e.walk ∧ matchExt en.name ext = true := by
  intro p
  induction p with
  | nil =>
    intro e en ext
    simp [nil_not_mem_rglobE, nil_not_mem_walk]
  | cons n q ih =>
    intro e en ext
    cases e with
    | file f => simp [rglobE_file, walk_file]
    | dir nm r cs =>
      simp only [Entry.rglobE, Entry.walk]
      by_cases hr : r
      · simp only [hr, if_true, List.mem_append, List.mem_map, mem_rglobEList,
          mem_walkList, List.mem_filter, Prod.mk.injEq]
        constructor
        · rintro (⟨c, ⟨hc, hm⟩, hp, hen⟩ | ⟨c, hc, q', hq, hmem⟩)
          · rcases List.cons.inj hp with ⟨h1, h2⟩
            subst hen
            exact ⟨⟨c, hc, Or.inl ⟨by rw [h1, h2], rfl⟩⟩, hm⟩
          · rcases List.cons.inj hq with ⟨h1, h2⟩
            rcases (ih c en ext).1 (h2 ▸ hmem) with ⟨hw, hm⟩
            exact ⟨⟨c, hc, Or.inr ⟨q, by rw [h1], hw⟩⟩, hm⟩
        · rintro ⟨⟨c, hc, ⟨hp, hen⟩ | ⟨q', hq, hw⟩⟩, hm⟩
          · rcases List.cons.inj hp with ⟨h1, h2⟩
            subst hen
            refine Or.inl ⟨en, ⟨hc, hm⟩, ?_, rfl⟩
            rw [h1, h2]
          · rcases List.cons.inj hq with ⟨h1, h2⟩
            exact Or.inr ⟨c, hc, q, by rw [h1],
              (ih c en ext).2 ⟨h2 ▸ hw, hm⟩⟩
      · simp [hr]

theorem mem_globTop {e : Entry} {ext : String} {nm : String} :
    nm ∈ e.globTop ext ↔
      ∃ c, ([c.name], c) ∈ e.walk ∧ matchExt c.name ext = true ∧ c.name = nm := by
  cases e with
  | file f => simp [Entry.globTop, walk_file]
  | dir n r cs =>
    simp only [Entry.globTop, Entry.walk]
    by_cases hr : r
    · simp only [hr, if_true, List.mem_map, List.mem_filter, mem_walkList,
        Prod.mk.injEq]
      constructor
      · rintro ⟨c, ⟨hc, hm⟩, hnm⟩
        exact ⟨c, ⟨c, hc, Or.inl ⟨rfl, rfl⟩⟩, hm, hnm⟩
      · rintro ⟨c, ⟨c', hc', ⟨hp, hen⟩ | ⟨q, hq, hw⟩⟩, hm, hnm⟩
        · rcases List.cons.inj hp with ⟨h1, _⟩
          subst hen
          exact ⟨c, ⟨hc', hm⟩, hnm⟩
        · rcases List.cons.inj hq with ⟨h1, h2⟩
          subst h2
          exact absurd hw nil_not_mem_walk
    · simp [hr]

theorem mem_addNew {acc new : List (List String)} {x : List String} :
    x ∈ addNew acc new ↔ x ∈ acc ∨ x ∈ new := by
  induction new generalizing acc with
  | nil => simp [addNew]
  | cons p rest ih =>
    by_cases hp : p ∈ acc
    · simp only [addNew, hp, if_true, ih, List.mem_cons]
      constructor
      · rintro (h | h)
        · exact Or.inl h
        · exact Or.inr (Or.inr h)
      · rintro (h | rfl | h)
        · exact Or.inl h
        · exact Or.inl hp
        · exact Or.inr h
    · simp only [addNew, hp, if_false, ih, List.mem_append, List.mem_cons,
        List.mem_singleton]
      tauto

theorem addNew_nodup {acc new : List (List String)} (h : acc.Nodup) :
    (addNew acc new).Nodup := by
  induction new generalizing acc with
  | nil => exact h
  | cons p rest ih =>
    by_cases hp : p ∈ acc
    · simpa [addNew, hp] using ih h
    · refine ih ?_
      simpa [List.nodup_append, hp] using h

theorem mem_sortPaths {l : List (List String)} {x : List String} :
    x ∈ sortPaths l ↔ x ∈ l := by
  exact (List.perm_insertionSort pathLe l).mem_iff

theorem sortPaths_nodup {l : List (List String)} (h : l.Nodup) :
    (sortPaths l).Nodup :=
  (List.perm_insertionSort pathLe l).nodup_iff.mpr h

theorem sortPaths_sorted (l : List (List String)) :
    List.Sorted pathLe (sortPaths l) :=
  List.sorted_insertionSort pathLe l

/-- No name matches both recognized extensions. -/
theorem not_lua_and_script {n : String} (h1 : matchExt n ".lua" = true)
    (h2 : matchExt n ".script" = true) : False := by
  rw [matchExt, List.isSuffixOf_iff_suffix] at h1 h2
  rcases h1 with ⟨t1, h1⟩
  rcases h2 with ⟨t2, h2⟩
  have e1 : n.toList.getLast? = some 'a' := by
    rw [← h1]
    simp [List.getLast?_append]
  have e2 : n.toList.getLast? = some 't' := by
    rw [← h2]
    simp [List.getLast?_append]
  rw [e1] at e2
  exact absurd (Option.some.inj e2) (by decide)

theorem mem_rglob {e : Entry} {ext : String} {q : List String} :
    q ∈ e.rglob ext ↔ ∃ en, (q, en) ∈ e.walk ∧ matchExt en.name ext = true := by
  simp only [Entry.rglob, List.mem_map]
  constructor
  · rintro ⟨⟨q', en⟩, hmem, rfl⟩
    exact ⟨en, (mem_rglobE_iff_walk _ _ _ _).1 hmem⟩
  · rintro ⟨en, hw, hm⟩
    exact ⟨(q, en), (mem_rglobE_iff_walk _ _ _ _).2 ⟨hw, hm⟩, rfl⟩

theorem mem_find_scripts {base : List String} {e : Entry} {p : List String} :
    p ∈ find_scripts base e ↔
      ∃ q en, p = base ++ q ∧ (q, en) ∈ e.walk ∧
        (matchExt en.name ".lua" = true ∨ matchExt en.name ".script" = true) := by
  unfold find_scripts
  simp only [mem_sortPaths, mem_addNew, List.mem_append, List.mem_map,
    mem_rglob, mem_globTop]
  constructor
  · rintro (((⟨nm, ⟨c, hw, hm, rfl⟩, rfl⟩ | ⟨nm, ⟨c, hw, hm, rfl⟩, rfl⟩) |
      ⟨q, ⟨en, hw, hm⟩, rfl⟩) | ⟨q, ⟨en, hw, hm⟩, rfl⟩)
    · exact ⟨[c.name], c, rfl, hw, Or.inl hm⟩
    · exact ⟨[c.name], c, rfl, hw, Or.inr hm⟩
    · exact ⟨q, en, rfl, hw, Or.inl hm⟩
    · exact ⟨q, en, rfl, hw, Or.inr hm⟩
  · rintro ⟨q, en, rfl, hw, hm | hm⟩
    · exact Or.inl (Or.inr ⟨q, ⟨en, hw, hm⟩, rfl⟩)
    · exact Or.inr ⟨q, ⟨en, hw, hm⟩, rfl⟩

theorem nodupB_iff {l : List String} : nodupB l = true ↔ l.Nodup := by
  induction l with
  | nil => simp [nodupB]
  | cons n rest ih =>
    simp [nodupB, ih, List.contains_eq_any_beq, List.any_eq_true]

theorem mem_globTop_matches {e : Entry} {ext nm : String}
    (h : nm ∈ e.globTop ext) : matchExt nm ext = true := by
  rcases mem_globTop.1 h with ⟨c, _, hm, hnm⟩
  exact hnm ▸ hm

theorem globTop_nodup {e : Entry} {ext : String}
    (h : (e.children.map Entry.name).Nodup) : (e.globTop ext).Nodup := by
  cases e with
  | file f => simp [Entry.globTop]
  | dir nm r cs =>
    simp only [Entry.globTop]
    split
    · exact ((List.filter_sublist cs).map Entry.name).nodup
        (by simpa [Entry.children] using h)
    · exact List.nodup_nil

theorem find_scripts_nodup {base : List String} {e : Entry}
    (h : nodupB (e.children.map Entry.name) = true) :
    (find_scripts base e).Nodup := by
  have hnames := nodupB_iff.1 h
  have hinj : Function.Injective (fun n => base ++ [n] : String → List String) := by
    intro a b hab
    simpa using List.append_cancel_left hab
  have htop :
      ((e.globTop ".lua").map (fun n => base ++ [n]) ++
        (e.globTop ".script").map (fun n => base ++ [n])).Nodup := by
    rw [List.nodup_append]
    refine ⟨(globTop_nodup hnames).map hinj, (globTop_nodup hnames).map hinj, ?_⟩
    intro x hx1 hx2
    rcases List.mem_map.1 hx1 with ⟨n1, hn1, rfl⟩
    rcases List.mem_map.1 hx2 with ⟨n2, hn2, he⟩
    have : n2 = n1 := by simpa using List.append_cancel_left he
    subst this
    exact not_lua_and_script (mem_globTop_matches hn1) (mem_globTop_matches hn2)
  exact sortPaths_nodup (addNew_nodup (addNew_nodup htop))

/-! ## Claim C1 -/

/-- A scripts directory containing a subdirectory whose name carries a
recognized extension. -/
def cex1 : Entry := .dir "scripts" true [.dir "evil.lua" true []]

/-- Claim C1, counterexample: on a scripts directory whose only entry is a
SUBDIRECTORY named `evil.lua`, `find_scripts` returns that directory's
path even though the tree contains no file at all, so the result is not
"exactly the set of files with the two recognized extensions" (glob
patterns match directories as well as files). -/
theorem C1_counterexample :
    find_scripts [] cex1 = [["evil.lua"]] ∧
    cex1.walk.all (fun pe => !pe.2.isFile) = true :=
  ⟨rfl, rfl⟩

/-- Claim C1 (amended): for every scripts directory whose immediate
children have pairwise distinct names, `find_scripts` returns a list free
of duplicates, sorted by absolute path string, containing exactly the
paths of the ENTRIES (files or directories alike) whose names end in
`.lua` or `.script`, found at the top level or recursively through
readable subdirectories (`Entry.walk` is the reference enumeration of the
tree). -/
theorem C1_find_scripts_spec (base : List String) (e : Entry)
    (h : nodupB (e.children.map Entry.name) = true) :
    (find_scripts base e).Nodup ∧
    List.Sorted pathLe (find_scripts base e) ∧
    ∀ p, p ∈ find_scripts base e ↔
      ∃ q en, p = base ++ q ∧ (q, en) ∈ e.walk ∧
        (matchExt en.name ".lua" = true ∨ matchExt en.name ".script" = true) := by
  refine ⟨find_scripts_nodup h, ?_, fun _ => mem_find_scripts⟩
  unfold find_scripts
  exact sortPaths_sorted _

/-- Concrete scripts directory used to witness `C1_find_scripts_spec`. -/
def wScripts : Entry := .dir "scripts" true
  [.file ⟨"b.lua", 1, [], true⟩, .file ⟨"a.script", 2, [], true⟩,
   .dir "sub" true [.file ⟨"c.lua", 3, [], true⟩]]

/-- Witness for `C1_find_scripts_spec` at a concrete tree. -/
theorem C1_find_scripts_spec_witness :
    nodupB (wScripts.children.map Entry.name) = true ∧
    (find_scripts ["base"] wScripts).Nodup ∧
    List.Sorted pathLe (find_scripts ["base"] wScripts) ∧
    ["base", "sub", "c.lua"] ∈ find_scripts ["base"] wScripts :=
  ⟨by decide, (C1_find_scripts_spec ["base"] wScripts (by decide)).1,
   (C1_find_scripts_spec ["base"] wScripts (by decide)).2.1,
   ((C1_find_scripts_spec ["base"] wScripts (by decide)).2.2 _).2
     ⟨["sub", "c.lua"], .file ⟨"c.lua", 3, [], true⟩, rfl,
      by simp [wScripts, Entry.walk, walkList, Entry.name], Or.inl (by decide)⟩⟩

/-! ## Claim C2 -/

theorem dictInsert_key_mem {d : Discovery} {k : String}
    {v : List (List String)} {k' : String} (h : ∃ w, (k', w) ∈ d) :
    ∃ w, (k', w) ∈ dictInsert d k v := by
  rcases h with ⟨w, hw⟩
  unfold dictInsert
  split
  · by_cases hk : k' = k
    · subst hk
      exact ⟨v, List.mem_map.2 ⟨(k', w), hw, by simp⟩⟩
    · exact ⟨w, List.mem_map.2 ⟨(k', w), hw, by simp [hk]⟩⟩
  · exact ⟨w, List.mem_append.2 (Or.inl hw)⟩

theorem processSubitems_key_mem {base : List String} {itemName : String}
    {mods : Discovery} {k : String} (subs : List Entry)
    (h : ∃ w, (k, w) ∈ mods) :
    ∃ w, (k, w) ∈ processSubitems base itemName mods subs := by
  induction subs generalizing mods with
  | nil => exact h
  | cons s rest ih =>
    unfold processSubitems
    apply ih
    dsimp only
    split
    · split
      · split
        · exact h
        · exact dictInsert_key_mem h
      · exact h
    · exact h

theorem processItem_key_mem {base : List String} {mods : Discovery}
    {item : Entry} {mods' : Discovery} {k : String} (h : ∃ w, (k, w) ∈ mods)
    (hp : processItem base mods item = .ok mods') : ∃ w, (k, w) ∈ mods' := by
  unfold processItem at hp
  split at hp
  · cases hp; exact h
  · split at hp
    · cases hp; exact h
    · split at hp
      · cases hp
        split
        · exact h
        · exact dictInsert_key_mem h
      · split at hp
        · cases hp
        · cases hp
          exact processSubitems_key_mem _ h

theorem processItems_key_mem {base : List String} {k : String} :
    ∀ (items : List Entry) (mods d : Discovery), (∃ w, (k, w) ∈ mods) →
      processItems base mods items = .ok d → ∃ w, (k, w) ∈ d := by
  intro items
  induction items with
  | nil =>
    intro mods d h hd
    cases hd
    exact h
  | cons item rest ih =>
    intro mods d h hd
    unfold processItems at hd
    cases hpi : processItem base mods item with
    | error e => rw [hpi] at hd; cases hd
    | ok mods' =>
      rw [hpi] at hd
      exact ih mods' d (processItem_key_mem h hpi) hd

/-- Claim C2 (amended): the classifier branches are NOT all cumulative.
Branch 1 is exclusive: when the root itself is named `"gamedata"`,
`discover_mods` returns after that branch, so every entry of the result is
keyed `"(root)"` and branches 2 and 3 contribute nothing.  Branches 2 and
3 are cumulative with each other: when the root is not named
`"gamedata"` and its direct `gamedata/scripts` yields scripts, the result
(when discovery succeeds) keeps an entry keyed by the root's own name
alongside whatever the subdirectory scan adds. -/
theorem C2_discover_branches (base : List String) (root : Entry) :
    (root.name = "gamedata" →
      ∀ kv ∈ discoverEntries base root, kv.1 = "(root)") ∧
    (root.name ≠ "gamedata" →
      ∀ sd, root.find ["gamedata", "scripts"] = some sd →
        find_scripts (base ++ ["gamedata", "scripts"]) sd ≠ [] →
        ∀ d, discover_mods base root = .ok d →
          ∃ v, (root.name, v) ∈ d) := by
  constructor
  · intro hnm kv hkv
    unfold discoverEntries discover_mods at hkv
    rw [if_pos hnm] at hkv
    rcases hfind : root.find ["scripts"] with _ | sd
    · rw [hfind] at hkv
      simp at hkv
    · rw [hfind] at hkv
      dsimp only at hkv
      split at hkv
      next x d heq =>
        split at heq
        · cases heq
          simp at hkv
        · cases heq
          simp only [List.mem_singleton] at hkv
          subst hkv
          rfl
      next x a heq =>
        split at heq <;> cases heq
  · intro hnm sd hsd hne d hd
    unfold discover_mods at hd
    rw [if_neg hnm, hsd] at hd
    dsimp only at hd
    rw [if_neg (by simpa [List.isEmpty_iff] using hne)] at hd
    cases hit : root.iterdirE with
    | error e => rw [hit] at hd; cases hd
    | ok items =>
      rw [hit] at hd
      refine processItems_key_mem items _ d ?_ hd
      refine ⟨find_scripts (base ++ ["gamedata", "scripts"]) sd, ?_⟩
      unfold dictInsert
      simp

/-- The inner `modA/gamedata/scripts` directory of the C2 counterexample. -/
def c2scriptsA : Entry := .dir "scripts" true [.file ⟨"b.script", 5, [], true⟩]

/-- A root named `gamedata` that also contains a nested mod `modA`. -/
def c2root : Entry := .dir "gamedata" true
  [.dir "scripts" true [.file ⟨"a.lua", 10, [], true⟩],
   .dir "modA" true [.dir "gamedata" true [c2scriptsA]]]

/-- Claim C2, counterexample: classifying a root named `gamedata` returns
only the `"(root)"` entry; the subdirectory `modA`, although it has a
`gamedata/scripts` folder with a script, contributes nothing, because
branch 1 returns early.  The checks are therefore not cumulative. -/
theorem C2_counterexample :
    discover_mods ["gamedata"] c2root =
      .ok [("(root)", [["gamedata", "scripts", "a.lua"]])] ∧
    c2root.find ["modA", "gamedata", "scripts"] = some c2scriptsA ∧
    find_scripts ["gamedata", "modA", "gamedata", "scripts"] c2scriptsA =
      [["gamedata", "modA", "gamedata", "scripts", "b.script"]] :=
  ⟨rfl, rfl, rfl⟩

/-- A single-mod scripts directory used to witness `C2_discover_branches`. -/
def w2scripts : Entry := .dir "scripts" true [.file ⟨"a.lua", 1, [], true⟩]

/-- A root directory named `wmod` with a direct `gamedata/scripts`. -/
def w2root : Entry := .dir "wmod" true [.dir "gamedata" true [w2scripts]]

/-- Witness for `C2_discover_branches`: both conjuncts applied at concrete
inputs, with every hypothesis discharged there. -/
theorem C2_discover_branches_witness :
    (∀ kv ∈ discoverEntries ["gamedata"] c2root, kv.1 = "(root)") ∧
    ∃ v, ("wmod", v) ∈ discoverEntries ["wmod"] w2root :=
  ⟨(C2_discover_branches ["gamedata"] c2root).1 rfl,
   (show discoverEntries ["wmod"] w2root =
      [("wmod", [["wmod", "gamedata", "scripts", "a.lua"]])] by rfl) ▸
     (C2_discover_branches ["wmod"] w2root).2 (by decide) w2scripts rfl
       (by decide) [("wmod", [["wmod", "gamedata", "scripts", "a.lua"]])]
       (by rfl)⟩

/-! ## Claim C3 -/

theorem processItems_error_of_bad {base : List String} {bn : String}
    {bcs : List Entry} (hskip : skipName bn = false) :
    ∀ (items : List Entry) (mods : Discovery), Entry.dir bn false bcs ∈ items →
      ∃ e, processItems base mods items = .error e := by
  intro items
  induction items with
  | nil =>
    intro mods h
    simp at h
  | cons item rest ih =>
    intro mods hmem
    rcases List.mem_cons.1 hmem with heq | hmem'
    · refine ⟨"PermissionError", ?_⟩
      unfold processItems
      rw [← heq]
      have hpi : processItem base mods (Entry.dir bn false bcs) =
          .error "PermissionError" := by
        simp [processItem, Entry.isDir, Entry.name, hskip, Entry.find,
          Entry.iterdirE]
      rw [hpi]
    · cases hpi : processItem base mods item with
      | error e =>
        exact ⟨e, by unfold processItems; rw [hpi]⟩
      | ok mods' =>
        rcases ih mods' hmem' with ⟨e, he⟩
        exact ⟨e, by unfold processItems; rw [hpi]; exact he⟩

/-- Claim C3 (amended): a directory read error on a subdirectory is NOT a
soft failure.  If the root (readable, not named `gamedata`) has an
immediate subdirectory that is an unreadable directory (so its
`gamedata/scripts` cannot be seen and listing it raises) and whose name
is not skipped, then `discover_mods` raises: the whole discovery aborts,
whatever the other subdirectories contain. -/
theorem C3_unreadable_aborts (base : List String) (nm : String)
    (cs : List Entry) (bn : String) (bcs : List Entry)
    (hnm : nm ≠ "gamedata") (hmem : Entry.dir bn false bcs ∈ cs)
    (hskip : skipName bn = false) :
    ∃ e, discover_mods base (Entry.dir nm true cs) = .error e := by
  unfold discover_mods
  rw [if_neg (by simpa [Entry.name] using hnm)]
  dsimp only [Entry.iterdirE, Entry.name]
  exact processItems_error_of_bad hskip cs _ hmem

/-- The readable mod's scripts directory in the C3 trees. -/
def c3scripts : Entry := .dir "scripts" true [.file ⟨"a.script", 3, [], true⟩]

/-- A mods root with one unreadable subdirectory and one good mod. -/
def c3root : Entry := .dir "mods" true
  [.dir "badmod" false [],
   .dir "goodmod" true [.dir "gamedata" true [c3scripts]]]

/-- Claim C3, counterexample: with one unreadable subdirectory `badmod`,
`discover_mods` raises `PermissionError` and returns no discovery result
at all, although the remaining subdirectory `goodmod` has a
`gamedata/scripts` folder whose collection is non-empty.  The claimed
soft-failure behaviour (skip and continue) does not exist in the code. -/
theorem C3_counterexample :
    discover_mods ["mods"] c3root = .error "PermissionError" ∧
    c3root.find ["goodmod", "gamedata", "scripts"] = some c3scripts ∧
    find_scripts ["mods", "goodmod", "gamedata", "scripts"] c3scripts ≠ [] :=
  ⟨rfl, rfl, by decide⟩

/-- Witness for `C3_unreadable_aborts` at the concrete tree `c3root`. -/
theorem C3_unreadable_aborts_witness :
    ∃ e, discover_mods ["mods"] c3root = .error e :=
  C3_unreadable_aborts ["mods"] "mods"
    [.dir "badmod" false [],
     .dir "goodmod" true [.dir "gamedata" true [c3scripts]]]
    "badmod" [] (by decide) (List.mem_cons_self _ _) (by decide)

/-! ## Claim C4 -/

theorem startsKey_head {line k : String} (h : startsKey line k = true)
    {c : Char} {cs : List Char} (hk : k.toList = c :: cs) :
    line.toList.head? = some c := by
  unfold startsKey at h
  rw [hk, List.isPrefixOf_iff_prefix] at h
  rcases h with ⟨t, ht⟩
  rw [← ht]
  rfl

theorem keys_nv {line : String} (h1 : startsKey line "name=" = true)
    (h2 : startsKey line "version=" = true) : False := by
  have e1 := startsKey_head h1
    (by decide : ("name=").toList = 'n' :: ['a', 'm', 'e', '='])
  have e2 := startsKey_head h2
    (by decide : ("version=").toList = 'v' :: ['e', 'r', 's', 'i', 'o', 'n', '='])
  rw [e1] at e2
  exact absurd (Option.some.inj e2) (by decide)

theorem keys_na {line : String} (h1 : startsKey line "name=" = true)
    (h2 : startsKey line "author=" = true) : False := by
  have e1 := startsKey_head h1
    (by decide : ("name=").toList = 'n' :: ['a', 'm', 'e', '='])
  have e2 := startsKey_head h2
    (by decide : ("author=").toList = 'a' :: ['u', 't', 'h', 'o', 'r', '='])
  rw [e1] at e2
  exact absurd (Option.some.inj e2) (by decide)

theorem keys_va {line : String} (h1 : startsKey line "version=" = true)
    (h2 : startsKey line "author=" = true) : False := by
  have e1 := startsKey_head h1
    (by decide : ("version=").toList = 'v' :: ['e', 'r', 's', 'i', 'o', 'n', '='])
  have e2 := startsKey_head h2
    (by decide : ("author=").toList = 'a' :: ['u', 't', 'h', 'o', 'r', '='])
  rw [e1] at e2
  exact absurd (Option.some.inj e2) (by decide)

theorem applyMetaLine_name_eq {info : ModInfo} {l : String}
    (h : ¬startsKey l "name=" = true) :
    (applyMetaLine info l).name = info.name := by
  unfold applyMetaLine
  rw [if_neg h]
  by_cases hv : startsKey l "version=" = true
  · rw [if_pos hv]
  · rw [if_neg hv]
    by_cases ha : startsKey l "author=" = true
    · rw [if_pos ha]
    · rw [if_neg ha]

theorem applyMetaLine_version_eq {info : ModInfo} {l : String}
    (h : ¬startsKey l "version=" = true) :
    (applyMetaLine info l).version = info.version := by
  unfold applyMetaLine
  by_cases hn : startsKey l "name=" = true
  · rw [if_pos hn]
  · rw [if_neg hn, if_neg h]
    by_cases ha : startsKey l "author=" = true
    · rw [if_pos ha]
    · rw [if_neg ha]

theorem applyMetaLine_author_eq {info : ModInfo} {l : String}
    (h : ¬startsKey l "author=" = true) :
    (applyMetaLine info l).author = info.author := by
  unfold applyMetaLine
  by_cases hn : startsKey l "name=" = true
  · rw [if_pos hn]
  · rw [if_neg hn]
    by_cases hv : startsKey l "version=" = true
    · rw [if_pos hv]
    · rw [if_neg hv, if_neg h]

theorem foldl_meta_name (lines : List String) (info : ModInfo) :
    (lines.foldl applyMetaLine info).name =
      ((lines.filter (fun l => startsKey l "name=")).getLast?).elim
        info.name (fun l => pyStrip (l.drop 5)) := by
  induction lines generalizing info with
  | nil => rfl
  | cons l rest ih =>
    simp only [List.foldl_cons, List.filter_cons]
    by_cases hn : startsKey l "name=" = true
    · rw [if_pos hn, ih]
      cases hfr : rest.filter (fun l => startsKey l "name=") with
      | nil =>
        simp [Option.elim, applyMetaLine, hn]
      | cons a fr =>
        rw [List.getLast?_cons_cons]
        rcases Option.isSome_iff_exists.1 (List.getLast?_isSome.2
          (List.cons_ne_nil a fr)) with ⟨x, hx⟩
        rw [hx]
        rfl
    · rw [if_neg hn, ih]
      cases hfr : (rest.filter (fun l => startsKey l "name=")).getLast? with
      | some x => simp
      | none =>
        simp only [Option.elim]
        exact applyMetaLine_name_eq hn

theorem foldl_meta_version (lines : List String) (info : ModInfo) :
    (lines.foldl applyMetaLine info).version =
      ((lines.filter (fun l => startsKey l "version=")).getLast?).elim
        info.version (fun l => some (pyStrip (l.drop 8))) := by
  induction lines generalizing info with
  | nil => rfl
  | cons l rest ih =>
    simp only [List.foldl_cons, List.filter_cons]
    by_cases hv : startsKey l "version=" = true
    · have hn : ¬startsKey l "name=" = true := fun h => keys_nv h hv
      rw [if_pos hv, ih]
      cases hfr : rest.filter (fun l => startsKey l "version=") with
      | nil =>
        simp [Option.elim, applyMetaLine, hn, hv]
      | cons a fr =>
        rw [List.getLast?_cons_cons]
        rcases Option.isSome_iff_exists.1 (List.getLast?_isSome.2
          (List.cons_ne_nil a fr)) with ⟨x, hx⟩
        rw [hx]
        rfl
    · rw [if_neg hv, ih]
      cases hfr : (rest.filter (fun l => startsKey l "version=")).getLast? with
      | some x => simp
      | none =>
        simp only [Option.elim]
        exact applyMetaLine_version_eq hv

theorem foldl_meta_author (lines : List String) (info : ModInfo) :
    (lines.foldl applyMetaLine info).author =
      ((lines.filter (fun l => startsKey l "author=")).getLast?).elim
        info.author (fun l => some (pyStrip (l.drop 7))) := by
  induction lines generalizing info with
  | nil => rfl
  | cons l rest ih =>
    simp only [List.foldl_cons, List.filter_cons]
    by_cases ha : startsKey l "author=" = true
    · have hn : ¬startsKey l "name=" = true := fun h => keys_na h ha
      have hv : ¬startsKey l "version=" = true := fun h => keys_va h ha
      rw [if_pos ha, ih]
      cases hfr : rest.filter (fun l => startsKey l "author=") with
      | nil =>
        simp [Option.elim, applyMetaLine, hn, hv, ha]
      | cons a fr =>
        rw [List.getLast?_cons_cons]
        rcases Option.isSome_iff_exists.1 (List.getLast?_isSome.2
          (List.cons_ne_nil a fr)) with ⟨x, hx⟩
        rw [hx]
        rfl
    · rw [if_neg ha, ih]
      cases hfr : (rest.filter (fun l => startsKey l "author=")).getLast? with
      | some x => simp
      | none =>
        simp only [Option.elim]
        exact applyMetaLine_author_eq ha

/-- Claim C4 (amended): for a mod directory whose readable `meta.ini`
holds the lines `L` (and with no `modinfo.txt`), `get_mod_info` keeps,
for each of the keys `name=`, `version=`, `author=`, the value of the
LAST matching line — each matching line overwrites the previous one, so
later duplicates win, not the first line as claimed. -/
theorem C4_meta_last_wins (mod : Entry) (f : SFile)
    (h1 : mod.find ["meta.ini"] = some (.file f)) (h2 : f.readable = true)
    (h3 : mod.find ["modinfo.txt"] = none) :
    (get_mod_info mod).name =
      ((f.lines.filter (fun l => startsKey l "name=")).getLast?).elim
        mod.name (fun l => pyStrip (l.drop 5)) ∧
    (get_mod_info mod).version =
      ((f.lines.filter (fun l => startsKey l "version=")).getLast?).elim
        none (fun l => some (pyStrip (l.drop 8))) ∧
    (get_mod_info mod).author =
      ((f.lines.filter (fun l => startsKey l "author=")).getLast?).elim
        none (fun l => some (pyStrip (l.drop 7))) := by
  unfold get_mod_info readModinfoTxt readMeta
  rw [h1, h3]
  dsimp only
  rw [show f.readLines = some f.lines by simp [SFile.readLines, h2]]
  exact ⟨foldl_meta_name f.lines ⟨mod.name, none, none⟩,
    foldl_meta_version f.lines ⟨mod.name, none, none⟩,
    foldl_meta_author f.lines ⟨mod.name, none, none⟩⟩

/-- A `meta.ini` with a duplicated `name=` key. -/
def c4meta : SFile :=
  ⟨"meta.ini", 0, ["name=First", "version=1.0", "name=Second"], true⟩

/-- A mod directory holding only the duplicated `meta.ini`. -/
def c4mod : Entry := .dir "mymod" true [.file c4meta]

/-- Claim C4, counterexample: with `meta.ini` lines
`name=First`, `version=1.0`, `name=Second`, the reader returns the name
`"Second"` — the LAST `name=` line wins, not the first as the claim
states. -/
theorem C4_counterexample :
    (get_mod_info c4mod).name = "Second" ∧
    (get_mod_info c4mod).name ≠ "First" :=
  ⟨rfl, by decide⟩

/-- Witness for `C4_meta_last_wins` at the concrete `meta.ini`. -/
theorem C4_meta_last_wins_witness :
    (get_mod_info c4mod).name = "Second" ∧
    (get_mod_info c4mod).version = some "1.0" := by
  have h := C4_meta_last_wins c4mod c4meta rfl rfl rfl
  exact ⟨h.1.trans (by decide), h.2.1.trans (by decide)⟩

/-! ## Claim C5 -/

/-- Whether reading the named metadata file of a mod directory fails:
the file is missing, or it is unreadable, or a directory stands in its
place (reading a directory raises `IsADirectoryError`). -/
def metaReadFails (mod : Entry) (fname : String) : Bool :=
  match mod.find [fname] with
  | some (.file f) => !f.readable
  | some (.dir _ _ _) => true
  | none => true

theorem readMeta_of_fails {mod : Entry} {info : ModInfo}
    (h : metaReadFails mod "meta.ini" = true) : readMeta mod info = info := by
  unfold metaReadFails at h
  unfold readMeta
  split
  next f heq =>
    rw [heq] at h
    dsimp only at h
    have hr : f.readable = false := by simpa using h
    simp [SFile.readLines, hr]
  next => rfl

theorem readModinfoTxt_of_fails {mod : Entry} {info : ModInfo}
    (h : metaReadFails mod "modinfo.txt" = true) :
    readModinfoTxt mod info = info := by
  unfold metaReadFails at h
  unfold readModinfoTxt
  split
  next f heq =>
    rw [heq] at h
    dsimp only at h
    have hr : f.readable = false := by simpa using h
    simp only [SFile.readLines, hr, Bool.false_eq_true, if_false]
  next => rfl

/-- Claim C5: `get_mod_info` is a total function of the tree — it never
raises, whatever the state of the metadata files — and when neither
`meta.ini` nor `modinfo.txt` can be read (missing, unreadable, or a
directory in a file's place), the returned record holds only the
directory-derived name: the mod folder's own name, with no version and
no author. -/
theorem C5_no_metadata (mod : Entry)
    (h1 : metaReadFails mod "meta.ini" = true)
    (h2 : metaReadFails mod "modinfo.txt" = true) :
    get_mod_info mod = ⟨mod.name, none, none⟩ := by
  unfold get_mod_info
  rw [readMeta_of_fails h1, readModinfoTxt_of_fails h2]

/-- A mod directory whose `meta.ini` is unreadable and whose
`modinfo.txt` is missing. -/
def c5mod : Entry := .dir "lonemod" true
  [.file ⟨"meta.ini", 9, ["name=Hidden"], false⟩,
   .file ⟨"readme.txt", 4, ["hi"], true⟩]

/-- Witness for `C5_no_metadata` at a concrete mod directory. -/
theorem C5_no_metadata_witness :
    get_mod_info c5mod = ⟨"lonemod", none, none⟩ :=
  C5_no_metadata c5mod (by decide) (by decide)

/-! ## Claim C6 -/

theorem dictInsert_values_ne {d : Discovery} {k : String}
    {v : List (List String)} (hd : ∀ kv ∈ d, kv.2 ≠ []) (hv : v ≠ []) :
    ∀ kv ∈ dictInsert d k v, kv.2 ≠ [] := by
  intro kv hkv
  unfold dictInsert at hkv
  split at hkv
  · rcases List.mem_map.1 hkv with ⟨kv', hkv', heq⟩
    by_cases hk : kv'.1 = k
    · rw [if_pos hk] at heq
      rw [← heq]
      exact hv
    · rw [if_neg hk] at heq
      rw [← heq]
      exact hd kv' hkv'
  · rcases List.mem_append.1 hkv with h | h
    · exact hd kv h
    · simp only [List.mem_singleton] at h
      rw [h]
      exact hv

theorem processSubitems_values_ne {base : List String} {itemName : String} :
    ∀ (subs : List Entry) (mods : Discovery), (∀ kv ∈ mods, kv.2 ≠ []) →
      ∀ kv ∈ processSubitems base itemName mods subs, kv.2 ≠ [] := by
  intro subs
  induction subs with
  | nil => intro mods h; exact h
  | cons s rest ih =>
    intro mods h
    unfold processSubitems
    apply ih
    dsimp only
    split
    · split
      next sd heq =>
        split
        next => exact h
        next hne => exact dictInsert_values_ne h (by simpa [List.isEmpty_iff] using hne)
      next => exact h
    · exact h

theorem processItem_values_ne {base : List String} {mods : Discovery}
    {item : Entry} {mods' : Discovery} (h : ∀ kv ∈ mods, kv.2 ≠ [])
    (hp : processItem base mods item = .ok mods') :
    ∀ kv ∈ mods', kv.2 ≠ [] := by
  unfold processItem at hp
  split at hp
  · cases hp; exact h
  · split at hp
    · cases hp; exact h
    · split at hp
      · cases hp
        split
        next => exact h
        next hne => exact dictInsert_values_ne h (by simpa [List.isEmpty_iff] using hne)
      · split at hp
        · cases hp
        · cases hp
          exact processSubitems_values_ne _ _ h

theorem processItems_values_ne {base : List String} :
    ∀ (items : List Entry) (mods d : Discovery), (∀ kv ∈ mods, kv.2 ≠ []) →
      processItems base mods items = .ok d → ∀ kv ∈ d, kv.2 ≠ [] := by
  intro items
  induction items with
  | nil =>
    intro mods d h hd
    cases hd
    exact h
  | cons item rest ih =>
    intro mods d h hd
    unfold processItems at hd
    cases hpi : processItem base mods item with
    | error e => rw [hpi] at hd; cases hd
    | ok mods' =>
      rw [hpi] at hd
      exact ih mods' d (processItem_values_ne h hpi) hd

/-- Claim C6: every mod entry of a discovery result has a non-empty
script list — a directory whose collection yields no script file is
never registered, in any branch of the classifier — and discovery is
deterministic: running it twice on the same (unmodified) tree gives the
same result, since `discover_mods` is a pure function of the tree. -/
theorem C6_nonempty_idempotent (base : List String) (root : Entry) :
    (∀ kv ∈ discoverEntries base root, kv.2 ≠ []) ∧
    discover_mods base root = discover_mods base root := by
  refine ⟨?_, rfl⟩
  intro kv hkv
  unfold discoverEntries at hkv
  cases hd : discover_mods base root with
  | error e => rw [hd] at hkv; simp at hkv
  | ok d =>
    rw [hd] at hkv
    dsimp only at hkv
    unfold discover_mods at hd
    split at hd
    · split at hd
      next sd heq =>
        dsimp only at hd
        split at hd
        · cases hd; simp at hkv
        next hne =>
          cases hd
          simp only [List.mem_singleton] at hkv
          rw [hkv]
          simpa [List.isEmpty_iff] using hne
      next => cases hd; simp at hkv
    · cases hit : root.iterdirE with
      | error e => rw [hit] at hd; cases hd
      | ok items =>
        rw [hit] at hd
        dsimp only at hd
        refine processItems_values_ne items _ d ?_ hd kv hkv
        split
        next sd heq =>
          split
          next => intro kv' hkv'; simp at hkv'
          next hne =>
            exact dictInsert_values_ne (fun kv' hkv' => absurd hkv' (List.not_mem_nil kv'))
              (by simpa [List.isEmpty_iff] using hne)
        next => intro kv' hkv'; simp at hkv'

/-- Witness for `C6_nonempty_idempotent` at a concrete tree. -/
theorem C6_nonempty_idempotent_witness :
    (∀ kv ∈ discoverEntries ["wmod"] w2root, kv.2 ≠ []) ∧
    discover_mods ["wmod"] w2root = discover_mods ["wmod"] w2root :=
  C6_nonempty_idempotent ["wmod"] w2root

/-! ## Claim C7 -/

/-- The failure entries produced by one run of the copy loop: one
`(relative path, message)` pair per found file whose copy fails. -/
def failList (scripts : List (String × List String × Entry)) :
    List (List String × String) :=
  (scripts.filter (fun t => !copyOk t.2.2)).map (fun t => (t.2.1, "copy failed"))

theorem copyLoop_spec :
    ∀ (scripts : List (String × List String × Entry)) (stats : ExportStats)
      (written : List (List String)),
      (copyLoop scripts stats written).1.errors = stats.errors ++ failList scripts ∧
      (copyLoop scripts stats written).1.files + (failList scripts).length =
        stats.files + scripts.length ∧
      (failList scripts = [] →
        (copyLoop scripts stats written).1.files = stats.files + scripts.length ∧
        (copyLoop scripts stats written).1.total_size =
          stats.total_size + (scripts.map (fun t => t.2.2.byteSize)).sum) := by
  intro scripts
  induction scripts with
  | nil =>
    intro stats written
    simp [copyLoop, failList]
  | cons t rest ih =>
    intro stats written
    obtain ⟨mn, rel, src⟩ := t
    by_cases hc : copyOk src = true
    · have hfl : failList ((mn, rel, src) :: rest) = failList rest := by
        simp [failList, hc]
      simp only [copyLoop, hc, if_true]
      rcases ih { stats with
          mods := insertOnce stats.mods mn
          files := stats.files + 1
          total_size := stats.total_size + src.byteSize } (written ++ [rel])
        with ⟨e1, e2, e3⟩
      refine ⟨?_, ?_, ?_⟩
      · rw [e1, hfl]
      · rw [hfl]
        simp only [List.length_cons]
        simp only at e2
        omega
      · intro hf
        rw [hfl] at hf
        rcases e3 hf with ⟨f1, f2⟩
        constructor
        · simp only at f1
          simp only [List.length_cons]
          omega
        · simp only at f2
          simp only [List.map_cons, List.sum_cons]
          omega
    · have hfl : failList ((mn, rel, src) :: rest) =
          (rel, "copy failed") :: failList rest := by
        simp [failList, hc]
      simp only [copyLoop, if_neg hc]
      rcases ih { stats with errors := stats.errors ++ [(rel, "copy failed")] }
          written with ⟨e1, e2, e3⟩
      refine ⟨?_, ?_, ?_⟩
      · rw [e1, hfl]
        simp
      · rw [hfl]
        simp only [List.length_cons]
        simp only at e2
        omega
      · intro hf
        rw [hfl] at hf
        cases hf

/-- Claim C7: the copy loop of `extract_scripts` is partial-failure
tolerant — each failed copy contributes exactly one entry to the failure
list and processing continues, so the file counter plus the failure
count equals the number of files found — and when no errors occur the
file counter equals the number of input files and the total-size counter
equals the sum of their byte sizes. -/
theorem C7_extract_stats (root : Entry)
    (scripts : List (String × List String × Entry)) (res : ExportResult)
    (hf : find_script_files root = .ok scripts)
    (h : extract_scripts root = .ok res) :
    res.stats.errors = failList scripts ∧
    res.stats.files + res.stats.errors.length = scripts.length ∧
    (res.stats.errors = [] →
      res.stats.files = scripts.length ∧
      res.stats.total_size = (scripts.map (fun t => t.2.2.byteSize)).sum) := by
  unfold extract_scripts at h
  rw [hf] at h
  dsimp only at h
  split at h
  next hempty =>
    have hs : scripts = [] := by simpa [List.isEmpty_iff] using hempty
    cases h
    subst hs
    simp [emptyStats, failList]
  next hne =>
    cases h
    dsimp only
    rcases copyLoop_spec scripts emptyStats [] with ⟨e1, e2, e3⟩
    have herr : (copyLoop scripts emptyStats []).1.errors = failList scripts := by
      rw [e1]
      simp [emptyStats]
    refine ⟨herr, ?_, ?_⟩
    · rw [herr]
      simpa [emptyStats] using e2
    · intro hz
      rw [herr] at hz
      rcases e3 hz with ⟨f1, f2⟩
      constructor
      · simpa [emptyStats] using f1
      · simpa [emptyStats] using f2

/-- The scripts directory of the C7 witness mod. -/
def c7scriptsDir : Entry := .dir "scripts" true [.file ⟨"a.script", 3, [], true⟩]

/-- A mods root with one mod holding one 3-byte script. -/
def c7root : Entry := .dir "mods" true
  [.dir "m1" true [.dir "gamedata" true [c7scriptsDir]]]

/-- The tuples `find_script_files` returns on `c7root`. -/
def c7scripts : List (String × List String × Entry) :=
  [("m1", ["m1", "gamedata", "scripts", "a.script"], .file ⟨"a.script", 3, [], true⟩)]

/-- The export result on `c7root`. -/
def c7res : ExportResult :=
  ⟨⟨["m1"], 1, 3, []⟩, true, [["m1", "gamedata", "scripts", "a.script"]]⟩

/-- Witness for `C7_extract_stats` at the concrete tree `c7root`. -/
theorem C7_extract_stats_witness :
    c7res.stats.errors = failList c7scripts ∧
    c7res.stats.files + c7res.stats.errors.length = c7scripts.length ∧
    (c7res.stats.errors = [] →
      c7res.stats.files = c7scripts.length ∧
      c7res.stats.total_size = (c7scripts.map (fun t => t.2.2.byteSize)).sum) :=
  C7_extract_stats c7root c7scripts c7res (by rfl) (by rfl)

/-! ## Claim C8 -/

/-- Claim C8: for a positive chunk size `c`, the chunking loop produces
exactly `ceil(n / c)` archives; archive `i` (0-based) is named
`zipName (i + 1)` — `mods_chunk_<NN>.zip` with `NN` 1-based and
zero-padded to two digits — and holds the next `c` mods of the sorted
list (the last chunk holding the remainder). -/
theorem C8_chunking (mods : List (Entry × Nat)) (c : Nat) (hc : 0 < c) :
    (makeChunks mods c).length = ceilDiv mods.length c ∧
    ∀ i, i < ceilDiv mods.length c →
      (makeChunks mods c)[i]? =
        some (zipName (i + 1), (mods.drop (i * c)).take c) := by
  constructor
  · simp [makeChunks]
  · intro i hi
    unfold makeChunks
    rw [List.getElem?_map, List.getElem?_range hi]
    simp only [Option.map_some']
    have htake : (mods.drop (i * c)).take (min ((i + 1) * c) mods.length - i * c) =
        (mods.drop (i * c)).take c := by
      rw [List.take_eq_take]
      rw [List.length_drop]
      have hmul : (i + 1) * c = i * c + c := by ring
      rcases le_or_lt ((i + 1) * c) mods.length with h | h
      · rw [min_eq_left h]
        omega
      · rw [min_eq_right (le_of_lt h)]
        omega
    rw [htake]

/-- One synthetic mod for the 120-mod chunking scenario. -/
def mkMod (k : Nat) : Entry × Nat := (Entry.dir ("m" ++ toString k) true [], 1)

/-- 120 synthetic mods. -/
def mods120 : List (Entry × Nat) := (List.range 120).map mkMod

/-- Witness for `C8_chunking`: 120 mods with chunk size 50 give exactly
3 archives holding 50, 50 and 20 mods, named `mods_chunk_01.zip` through
`mods_chunk_03.zip`. -/
theorem C8_chunking_witness :
    (makeChunks mods120 50).length = 3 ∧
    (makeChunks mods120 50)[0]? = some (zipName 1, (mods120.drop 0).take 50) ∧
    (makeChunks mods120 50)[1]? = some (zipName 2, (mods120.drop 50).take 50) ∧
    (makeChunks mods120 50)[2]? = some (zipName 3, (mods120.drop 100).take 50) ∧
    zipName 1 = "mods_chunk_01.zip" ∧
    zipName 2 = "mods_chunk_02.zip" ∧
    zipName 3 = "mods_chunk_03.zip" ∧
    ((mods120.drop 0).take 50).length = 50 ∧
    ((mods120.drop 50).take 50).length = 50 ∧
    ((mods120.drop 100).take 50).length = 20 := by
  have h := C8_chunking mods120 50 (by decide)
  have hl : ceilDiv mods120.length 50 = 3 := by
    set_option maxRecDepth 4000 in rfl
  refine ⟨h.1.trans hl, ?_, ?_, ?_, rfl, rfl, rfl, by rfl, by rfl, by rfl⟩
  · exact h.2 0 (by rw [hl]; decide)
  · exact h.2 1 (by rw [hl]; decide)
  · exact h.2 2 (by rw [hl]; decide)

/-! ## Claim C9 -/

/-- Claim C9: the chunk splitter's driver exits with code 1 when the
given path does not exist (creating no archive) and when the scan finds
no mods; in `--list` mode with mods found it exits 0 and creates no
archive file, regardless of the mod count. -/
theorem C9_split_exit (root : Entry) (c : Nat) :
    (∀ lf, splitMain none c lf = .ok (1, [])) ∧
    (∀ mods, get_mods root = .ok mods → mods = [] →
      ∀ lf, splitMain (some root) c lf = .ok (1, [])) ∧
    (∀ mods, get_mods root = .ok mods → mods ≠ [] →
      splitMain (some root) c true = .ok (0, [])) := by
  refine ⟨fun lf => rfl, ?_, ?_⟩
  · intro mods hm hnil lf
    unfold splitMain
    dsimp only
    rw [hm]
    dsimp only
    rw [if_pos (by simpa [List.isEmpty_iff] using hnil)]
  · intro mods hm hnil
    unfold splitMain
    dsimp only
    rw [hm]
    dsimp only
    rw [if_neg (by simpa [List.isEmpty_iff] using hnil)]
    rfl

/-- A mods root with one mod (one top-level `.script` file). -/
def c9root : Entry := .dir "mods" true
  [.dir "m1" true [.dir "gamedata" true
    [.dir "scripts" true [.file ⟨"a.script", 3, [], true⟩]]]]

/-- The mod list `get_mods` returns on `c9root`. -/
def c9mods : List (Entry × Nat) :=
  [(.dir "m1" true [.dir "gamedata" true
    [.dir "scripts" true [.file ⟨"a.script", 3, [], true⟩]]], 1)]

/-- An empty mods root. -/
def c9empty : Entry := .dir "mods" true []

/-- Witness for `C9_split_exit` at concrete inputs: missing path, empty
scan, and list mode with one mod. -/
theorem C9_split_exit_witness :
    splitMain none 50 false = .ok (1, []) ∧
    splitMain (some c9empty) 50 true = .ok (1, []) ∧
    splitMain (some c9root) 50 true = .ok (0, []) :=
  ⟨(C9_split_exit c9root 50).1 false,
   (C9_split_exit c9empty 50).2.1 [] (by rfl) rfl true,
   (C9_split_exit c9root 50).2.2 c9mods (by rfl) (by simp [c9mods])⟩

/-! ## Claim C10 -/

/-- Specification-side test: no entry named `*.script` is reachable (via
the readable walk) below any immediate subdirectory's `gamedata/scripts`
folder. -/
def noScriptsB (items : List Entry) : Bool :=
  items.all (fun m =>
    !m.isDir ||
    (match m.find ["gamedata", "scripts"] with
     | some sd => sd.walk.all (fun pe => !matchExt pe.2.name ".script")
     | none => true))

theorem collectMods_nil {items : List Entry} (h : noScriptsB items = true) :
    collectMods items = [] := by
  induction items with
  | nil => rfl
  | cons m rest ih =>
    simp only [noScriptsB, List.all_cons, Bool.and_eq_true] at h
    rcases h with ⟨h1, h2⟩
    have hrest : collectMods rest = [] := ih (by simpa [noScriptsB] using h2)
    unfold collectMods
    rw [hrest, List.append_nil]
    by_cases hd : m.isDir = true
    · rw [if_pos hd]
      cases hfind : m.find ["gamedata", "scripts"] with
      | none => rfl
      | some sd =>
        dsimp only
        simp only [hd, hfind, Bool.not_true, Bool.false_or] at h1
        have hg : sd.rglobE ".script" = [] := by
          cases hg : sd.rglobE ".script" with
          | nil => rfl
          | cons pe tail =>
            obtain ⟨p, en⟩ := pe
            rcases (mem_rglobE_iff_walk p sd en ".script").1
              (by rw [hg]; exact List.mem_cons_self _ _) with ⟨hw, hmx⟩
            have := List.all_eq_true.1 h1 (p, en) hw
            simp [hmx] at this
        rw [hg]
        rfl
    · rw [if_neg hd]

/-- Claim C10: when no `.script` entry is found below any immediate
subdirectory's `gamedata/scripts` tree, `extract_scripts` returns stats
with zero files, zero total size, an empty mod set and an empty failure
list, does not create the output directory, and writes nothing. -/
theorem C10_no_scripts_no_output (root : Entry) (items : List Entry)
    (hr : root.iterdirE = .ok items) (h : noScriptsB items = true) :
    extract_scripts root = .ok ⟨⟨[], 0, 0, []⟩, false, []⟩ := by
  unfold extract_scripts find_script_files
  rw [hr]
  dsimp only
  rw [collectMods_nil h]
  rfl

/-- A mods root whose only mod has a `.lua` file but no `.script` file. -/
def c10root : Entry := .dir "mods" true
  [.dir "m1" true [.dir "gamedata" true
    [.dir "scripts" true [.file ⟨"a.lua", 3, [], true⟩]]]]

/-- Witness for `C10_no_scripts_no_output` at `c10root`. -/
theorem C10_no_scripts_no_output_witness :
    extract_scripts c10root = .ok ⟨⟨[], 0, 0, []⟩, false, []⟩ :=
  C10_no_scripts_no_output c10root
    [.dir "m1" true [.dir "gamedata" true
      [.dir "scripts" true [.file ⟨"a.lua", 3, [], true⟩]]]]
    rfl (by decide)

end Anomaly
